import Mathlib

/-!
Verification of the retrieval core of a minimal RAG pipeline
(chunking, embedding acquisition, flat-L2 index build/persist/load,
top-k retrieval).

Source files embedded here:
- `src/utils/chunking.py`  (`chunk_text`)
- `src/utils/embedding.py` (`get_embedding`, response parsing)
- `src/utils/retrieval.py` (`load_faiss_index`, `retrieve_top_k`,
  `_create_index`, module constants `EMBEDDING_DIM`, `INDEX_TYPE`)

Modelling conventions:
- Text is `List Char`; a `Chunk` is a `List Char` (Python `str`).
- Embedding vectors are `List Int`: the source uses float32 vectors, but
  every concrete vector appearing in the verified properties is
  integer-valued, on which float32 arithmetic is exact.
- Fallible Python code (raising exceptions) becomes `Except RagError`.
  `RagError` constructors tag the (exception class, message family)
  pairs raised by the source; structured payloads (offending chunk,
  expected/actual dimension) stand for the data interpolated into the
  Python message strings.
- The filesystem touched by `load_faiss_index` is an explicit `FS`
  record threaded through the function.
-/

/-- Error taxonomy of the source.  Each constructor corresponds to one
family of exceptions raised in the Python code: `invalidArg` to the
argument-validation `ValueError`s, `dimMismatch` to the
embedding-dimension `ValueError`s (carrying the offending text and the
expected/actual lengths that the source interpolates into the message),
`malformedResponse` to the response-schema `ValueError`s of
`get_embedding`, `keyError` to the `KeyError` raised when extracting
`data[0]["embedding"]` fails, `conversionError` to the numpy conversion
failure on a non-numeric embedding payload, `consistency` to the
mapping/index length-mismatch `ValueError` of `load_faiss_index`,
`missingSource` to its `FileNotFoundError`, and `indexError` to a Python
`IndexError` from a list subscript. -/
inductive RagError where
  | invalidArg (msg : String)
  | dimMismatch (offender : List Char) (expected got : Nat)
  | malformedResponse (msg : String)
  | keyError (msg : String)
  | conversionError (msg : String)
  | consistency (msg : String)
  | missingSource (msg : String)
  | indexError (msg : String)
deriving DecidableEq, Repr

deriving instance DecidableEq for Except

/-- Whitespace test, modelling the character class `\s` used by
`re.split(r"\s+", ...)` in `chunking.py` and the default strip set of
Python `str.strip()` (restricted to the ASCII whitespace actually
occurring in the data flow). -/
def isWs (c : Char) : Bool := c.isWhitespace

/-- Python `str.strip()`: drop leading and trailing whitespace. -/
def strip (s : List Char) : List Char :=
  ((s.dropWhile isWs).reverse.dropWhile isWs).reverse

/-- Accumulator worker for `words`: scans the text left to right,
collecting the current word in reverse in `cur`. -/
def wordsAux : List Char → List Char → List (List Char)
  | [], cur => if cur = [] then [] else [cur.reverse]
  | c :: rest, cur =>
    if isWs c then
      if cur = [] then wordsAux rest [] else cur.reverse :: wordsAux rest []
    else wordsAux rest (c :: cur)

/-- Splitting on maximal whitespace runs, modelling
`re.split(r"\s+", stripped_text)` in `chunk_text`.  On input without
leading or trailing whitespace (the only way the source calls it, on
`text.strip()`), `re.split` produces no empty fields, which is exactly
this function's behaviour. -/
def words (s : List Char) : List (List Char) := wordsAux s []

/-- `" ".join(ws)`: interleave the words with single spaces. -/
def joinWords : List (List Char) → List Char
  | [] => []
  | [w] => w
  | w :: ws => w ++ ' ' :: joinWords ws

/-- Consecutive windows of `m` elements (last window possibly shorter),
modelling the slice comprehension
`[words[i : i + max_words] for i in range(0, len(words), max_words)]`
for `m = max_words ≥ 1`: Python's `range(0, n, m)` has
`(n + m - 1) / m` elements, and its `j`-th element is the start
position `j * m` of the `j`-th slice. -/
def groupsOf (m : Nat) (l : List α) : List (List α) :=
  (List.range ((l.length + m - 1) / m)).map fun j => (l.drop (j * m)).take m

/-- `chunk_text` from `src/utils/chunking.py`.  The Python `TypeError`
branch (non-`str` input) is ruled out by typing; a negative Python
`max_words` fails the same `max_words < 1` guard that `0` does, so
`max_words` is a `Nat` here. -/
def chunk_text (text : List Char) (max_words : Nat := 100) :
    Except RagError (List (List Char)) :=
  let stripped_text := strip text
  if stripped_text = [] then
    .error (.invalidArg "text cannot be empty or whitespace-only")
  else if max_words < 1 then
    .error (.invalidArg "max_words must be at least 1")
  else
    let ws := words stripped_text
    if ws.length ≤ max_words then .ok [stripped_text]
    else .ok ((groupsOf max_words ws).map joinWords)

example : chunk_text ['a', ' ', 'b', ' ', 'c'] 2 =
    .ok [['a', ' ', 'b'], ['c']] := by decide

example : chunk_text [' ', 'a', 'b', ' '] 5 = .ok [['a', 'b']] := by decide

example : chunk_text [' ', ' '] 5 =
    .error (.invalidArg "text cannot be empty or whitespace-only") := by decide

/-! ## Embedding (`src/utils/embedding.py`) -/

/-- Embedding vectors (`EMBEDDING_DIM = 1536` in `retrieval.py`).  The
source works with float32 numpy arrays; coordinates are modelled as
integers, on which float32 arithmetic is exact for the magnitudes that
occur in the verified properties. -/
abbrev Vec := List Int

/-- Module constant `EMBEDDING_DIM` of `src/utils/retrieval.py`. -/
def EMBEDDING_DIM : Nat := 1536

/-- Module constant `INDEX_TYPE` of `src/utils/retrieval.py`. -/
def INDEX_TYPE : String := "FlatL2"

/-- Parsed JSON values, modelling the result of `response.json()` in
`get_embedding` (numbers restricted to the integers, see `Vec`). -/
inductive Json where
  | null
  | jbool (b : Bool)
  | jnum (n : Int)
  | jstr (s : List Char)
  | jarr (items : List Json)
  | jobj (fields : List (List Char × Json))

/-- Python `dict` field access on a parsed JSON object (keys of a JSON
object are unique, so first match suffices). -/
def lookupField : List (List Char × Json) → List Char → Option Json
  | [], _ => none
  | (k, v) :: rest, key => if k = key then some v else lookupField rest key

/-- `np.asarray(embedding, dtype=np.float32)` on the extracted
`embedding` list: succeeds only when every element is a number. -/
def jsonNums : List Json → Option Vec
  | [] => some []
  | .jnum n :: rest => (jsonNums rest).map (fun v => n :: v)
  | _ => none

/-- The final `np.asarray` conversion of the extracted embedding
list. -/
def vecOfItems (items : List Json) : Except RagError Vec :=
  match jsonNums items with
  | some v => .ok v
  | none => .error (.conversionError "could not convert embedding payload to float32")

/-- The extraction `data["data"][0]["embedding"]` of `get_embedding`:
a `KeyError`/`IndexError`/`TypeError` during the subscripting is
re-raised as `KeyError`. -/
def extractEmbedding (first : Json) : Except RagError Vec :=
  match first with
  | .jobj ff =>
    match lookupField ff ['e', 'm', 'b', 'e', 'd', 'd', 'i', 'n', 'g'] with
    | some (.jarr items) => vecOfItems items
    | some _ => .error (.conversionError "could not convert embedding payload to float32")
    | none => .error (.keyError "Error while parsing embedding API response.")
  | _ => .error (.keyError "Error while parsing embedding API response.")

/-- The response-schema validation of `get_embedding`: checks that the
parsed body is a `dict` containing a non-empty `data` list, raising the
`ValueError`s of the source otherwise. -/
def parseEmbeddingResponse (response : Json) : Except RagError Vec :=
  match response with
  | .jobj fields =>
    match lookupField fields ['d', 'a', 't', 'a'] with
    | some (.jarr (first :: _)) => extractEmbedding first
    | some (.jarr []) => .error (.malformedResponse "Response does not contain any data.")
    | some _ => .error (.malformedResponse "Response does not contain any data.")
    | none => .error (.malformedResponse "Response does not contain any data.")
  | _ => .error (.malformedResponse "Invalid JSON response object.")

/-- `get_embedding` from `src/utils/embedding.py`, restricted to its
deterministic portion: the argument validation (`text` non-empty,
`_ensure_api_key`) and the handling of the parsed response body.  The
HTTP transport is abstracted away: `response` is the value produced by
`response.json()` (transport and JSON-parse failures abort before this
code runs).  An absent key is `none`; Python's falsy empty-string key is
`some []`. -/
def get_embedding (text : List Char) (api_key : Option (List Char))
    (response : Json) : Except RagError Vec :=
  if ¬ 0 < text.length then
    .error (.invalidArg "Text must be a non-empty string.")
  else if api_key = none ∨ api_key = some [] then
    .error (.invalidArg "An API key must be supplied via the api_key argument.")
  else parseEmbeddingResponse response

example :
    get_embedding ['h', 'i'] (some ['k'])
      (.jobj [(['d', 'a', 't', 'a'],
              .jarr [.jobj [(['e', 'm', 'b', 'e', 'd', 'd', 'i', 'n', 'g'],
                            .jarr [.jnum 1, .jnum 2])]])]) = .ok [1, 2] := by decide

example :
    get_embedding ['h', 'i'] (some ['k']) (.jobj []) =
      .error (.malformedResponse "Response does not contain any data.") := by decide

/-! ## Retrieval (`src/utils/retrieval.py`) -/

/-- A chunk is a Python string (`Chunk = str` in `retrieval.py`). -/
abbrev Chunk := List Char

/-- A `faiss.IndexFlatL2`: the configured dimension and the stored
vectors in insertion order (`ntotal = vecs.length`).
Modelled from the spec: the index is external library state; the spec
describes it as an exact collection of embeddings supporting squared-L2
nearest-neighbor queries, append-only, with `index.ntotal` the vector
count. -/
structure FaissIndex where
  dim : Nat
  vecs : List Vec
deriving DecidableEq, Repr

/-- `index.ntotal`. -/
def FaissIndex.ntotal (idx : FaissIndex) : Nat := idx.vecs.length

/-- `_create_index` from `src/utils/retrieval.py`: builds a
`faiss.IndexFlatL2(EMBEDDING_DIM)` and adds all embeddings when
`INDEX_TYPE == "FlatL2"`, else raises `ValueError`. -/
def create_index (embeddings : List Vec) : Except RagError FaissIndex :=
  if INDEX_TYPE = "FlatL2" then .ok ⟨EMBEDDING_DIM, embeddings⟩
  else .error (.invalidArg ("Invalid index type: " ++ INDEX_TYPE))

/-- Squared L2 distance between two vectors (the metric of
`IndexFlatL2`). -/
def sqDist (u v : Vec) : Int :=
  ((u.zip v).map fun p => (p.1 - p.2) * (p.1 - p.2)).sum

/-- Pairs each stored vector with its (distance to the query, position),
positions counted from `start`. -/
def scoreVecs (q : Vec) : List Vec → Nat → List (Int × Nat)
  | [], _ => []
  | v :: rest, start => (sqDist q v, start) :: scoreVecs q rest (start + 1)

/-- Rank order of search candidates: ascending distance, ties broken by
ascending position. -/
def distLeB (a b : Int × Nat) : Bool :=
  a.1 < b.1 || (a.1 == b.1 && a.2 ≤ b.2)

/-- Sorts candidates into rank order. -/
def rankOrder (l : List (Int × Nat)) : List (Int × Nat) :=
  List.insertionSort (fun a b => distLeB a b = true) l

/-- `index.search(query, k)`, returning the row of positions.
Modelled from the spec: the flat-L2 search is an exact linear scan by
squared Euclidean distance, returning the `k` nearest positions in
ascending-distance order (ascending-position tie-break); when `k`
exceeds the index size the row is padded with the sentinel `-1`. -/
def searchIndex (idx : FaissIndex) (q : Vec) (k : Nat) : List Int :=
  let sorted := rankOrder (scoreVecs q idx.vecs 0)
  ((sorted.take k).map fun p => (p.2 : Int)) ++
    List.replicate (k - idx.vecs.length) (-1)

/-- Python list subscript `mapping[i]` for an `int` index: negative
indices count from the end; out-of-range raises `IndexError`. -/
def pyGet (mapping : List Chunk) (i : Int) : Except RagError Chunk :=
  let j : Int := if i < 0 then (mapping.length : Int) + i else i
  if h : 0 ≤ j ∧ j.toNat < mapping.length then
    .ok (mapping.get ⟨j.toNat, h.2⟩)
  else .error (.indexError "list index out of range")

/-- The list comprehension `[mapping[i] for i in valid_indices]`,
propagating a possible `IndexError`. -/
def pyGetAll (mapping : List Chunk) : List Int → Except RagError (List Chunk)
  | [] => .ok []
  | i :: rest =>
    match pyGet mapping i with
    | .error e => .error e
    | .ok c =>
      match pyGetAll mapping rest with
      | .error e => .error e
      | .ok cs => .ok (c :: cs)

/-- `retrieve_top_k` from `src/utils/retrieval.py`.  The call
`get_embedding(query, api_key=api_key)` is abstracted as the oracle
`embed`, covering both a returned vector and a raised error. -/
def retrieve_top_k (query : List Char) (index : FaissIndex)
    (mapping : List Chunk) (k : Int)
    (embed : List Char → Except RagError Vec) : Except RagError (List Chunk) :=
  if query = [] then .error (.invalidArg "Query must be a non-empty string.")
  else if k ≤ 0 then .error (.invalidArg "k must be a positive integer.")
  else
    let kc : Int := min k (mapping.length : Int)
    match embed query with
    | .error e => .error e
    | .ok query_embedding =>
      if query_embedding.length ≠ EMBEDDING_DIM then
        .error (.dimMismatch query EMBEDDING_DIM query_embedding.length)
      else
        let indices := searchIndex index query_embedding kc.toNat
        let valid_indices := indices.filter fun i => decide (0 ≤ i)
        pyGetAll mapping valid_indices

/-! ## Index build, persistence and load (`load_faiss_index`) -/

/-- The slice of the filesystem `load_faiss_index` touches:
`INDEX_FILE` (the persisted FAISS index), `MAPPING_FILE` (the persisted
chunk mapping) and `DATA_FILE` (the source document).  `none` means the
file does not exist.
Modelled from the spec: serialization is external library / stdlib
behaviour (`faiss.write_index`/`faiss.read_index`, `json.dump`/
`json.load`); per the spec's round-trip property the persisted artifacts
reproduce the index contents and the mapping exactly, so an artifact is
stored as the value it deserializes to. -/
structure FS where
  indexFile : Option FaissIndex
  mappingFile : Option (List Chunk)
  dataFile : Option (List Char)
deriving DecidableEq, Repr

/-- The embedding loop of `load_faiss_index`: for each chunk in order,
call `get_embedding` (abstracted as the oracle `embed`), raise
`ValueError` at the first embedding whose length differs from
`EMBEDDING_DIM` (naming the offending chunk), and otherwise accumulate
the mapping and the embedding matrix in parallel. -/
def embed_chunks (embed : Chunk → Except RagError Vec) :
    List Chunk → Except RagError (List Chunk × List Vec)
  | [] => .ok ([], [])
  | c :: cs =>
    match embed c with
    | .error e => .error e
    | .ok emb =>
      if emb.length ≠ EMBEDDING_DIM then
        .error (.dimMismatch c EMBEDDING_DIM emb.length)
      else
        match embed_chunks embed cs with
        | .error e => .error e
        | .ok (mapping, embeddings) => .ok (c :: mapping, emb :: embeddings)

/-- The fresh-build branch of `load_faiss_index`: read the source
document, chunk it (`chunk_text` with its default `max_words = 100`),
reject an empty chunk list, embed every chunk, and build the index.
Pure of any filesystem write (the caller persists on success). -/
def build_from_data :
    Option (List Char) → (Chunk → Except RagError Vec) →
    Except RagError (FaissIndex × List Chunk)
  | none, _ => .error (.missingSource "Data file does not exist.")
  | some text, embed =>
    match chunk_text text 100 with
    | .error e => .error e
    | .ok chunks =>
      if chunks = [] then .error (.invalidArg "No chunks found in the data file.")
      else
        match embed_chunks embed chunks with
        | .error e => .error e
        | .ok (mapping, embeddings) =>
          match create_index embeddings with
          | .error e => .error e
          | .ok index => .ok (index, mapping)

/-- `load_faiss_index` from `src/utils/retrieval.py`, as a function of
the filesystem slice `FS`; the second component of the result is the
filesystem after the call.  If both artifacts exist they are loaded and
the mapping length is checked against `index.ntotal`; otherwise the
index is rebuilt from the source document and, only on success, both
artifacts are (over)written.  Every raising path leaves the filesystem
unchanged: the `try/except` in the source only logs and re-raises, and
the writes are the last statements before the successful return. -/
def load_faiss_index (fs : FS) (embed : Chunk → Except RagError Vec) :
    Except RagError (FaissIndex × List Chunk) × FS :=
  match fs.indexFile, fs.mappingFile with
  | some index, some mapping =>
    if mapping.length ≠ index.ntotal then
      (.error (.consistency
        "Number of chunks in the mapping does not match the number of chunks in the index."), fs)
    else (.ok (index, mapping), fs)
  | _, _ =>
    match build_from_data fs.dataFile embed with
    | .error e => (.error e, fs)
    | .ok (index, mapping) =>
      (.ok (index, mapping),
       { fs with indexFile := some index, mappingFile := some mapping })

example :
    load_faiss_index ⟨some ⟨EMBEDDING_DIM, [[1]]⟩, some [], some ['a']⟩
        (fun _ => .ok []) =
      (.error (.consistency
        "Number of chunks in the mapping does not match the number of chunks in the index."),
       ⟨some ⟨EMBEDDING_DIM, [[1]]⟩, some [], some ['a']⟩) := by decide

/-- Zero-padding of a vector to the configured index dimension (used to
realize the spec's low-dimensional scenario vectors inside the
`EMBEDDING_DIM`-sized index the source actually builds: appended zero
coordinates leave all pairwise squared L2 distances unchanged). -/
def padV (v : Vec) : Vec := v ++ List.replicate (EMBEDDING_DIM - v.length) 0

/-! ## Lemmas about words, joining and grouping -/

/-- Every word produced by `wordsAux` is non-empty and whitespace-free,
provided the accumulator is whitespace-free. -/
theorem wordsAux_good : ∀ (cs : List Char) (cur : List Char),
    (∀ ch ∈ cur, isWs ch = false) →
    ∀ w ∈ wordsAux cs cur, w ≠ [] ∧ ∀ ch ∈ w, isWs ch = false := by
  intro cs
  induction cs with
  | nil =>
    intro cur hcur w hw
    by_cases h : cur = []
    · simp [wordsAux, h] at hw
    · simp [wordsAux, h] at hw
      subst hw
      refine ⟨by simp [h], ?_⟩
      intro ch hch
      exact hcur ch (List.mem_reverse.mp hch)
  | cons c rest ih =>
    intro cur hcur w hw
    by_cases hws : isWs c = true
    · by_cases h : cur = []
      · simp [wordsAux, hws, h] at hw
        exact ih [] (by simp) w hw
      · simp [wordsAux, hws, h] at hw
        rcases hw with hw | hw
        · subst hw
          refine ⟨by simp [h], ?_⟩
          intro ch hch
          exact hcur ch (List.mem_reverse.mp hch)
        · exact ih [] (by simp) w hw
    · simp only [Bool.not_eq_true] at hws
      simp [wordsAux, hws] at hw
      refine ih (c :: cur) ?_ w hw
      intro ch hch
      rcases List.mem_cons.mp hch with h | h
      · subst h; exact hws
      · exact hcur ch h

/-- Every word of a text is non-empty and whitespace-free. -/
theorem words_good (s : List Char) :
    ∀ w ∈ words s, w ≠ [] ∧ ∀ ch ∈ w, isWs ch = false :=
  wordsAux_good s [] (by simp)

/-- Scanning a whitespace-free word pushes it whole onto the
accumulator. -/
theorem wordsAux_word : ∀ (w rest cur : List Char),
    (∀ ch ∈ w, isWs ch = false) →
    wordsAux (w ++ rest) cur = wordsAux rest (w.reverse ++ cur) := by
  intro w
  induction w with
  | nil => intro rest cur _; simp
  | cons c w' ih =>
    intro rest cur hgood
    have hc : isWs c = false := hgood c (by simp)
    simp only [List.cons_append, wordsAux, hc, Bool.false_eq_true, if_false]
    show wordsAux (w' ++ rest) (c :: cur) = wordsAux rest ((c :: w').reverse ++ cur)
    rw [ih rest (c :: cur) (fun ch hch => hgood ch (by simp [hch]))]
    simp

/-- Splitting the space-joined concatenation of non-empty
whitespace-free words recovers exactly those words. -/
theorem words_joinWords : ∀ (ws : List (List Char)),
    (∀ w ∈ ws, w ≠ [] ∧ ∀ ch ∈ w, isWs ch = false) →
    words (joinWords ws) = ws := by
  intro ws
  induction ws with
  | nil => intro _; simp [joinWords, words, wordsAux]
  | cons w ws' ih =>
    intro hgood
    have hw := hgood w (by simp)
    cases ws' with
    | nil =>
      show words (joinWords [w]) = [w]
      have : joinWords [w] = w := rfl
      rw [this]
      unfold words
      rw [(by simp : w = w ++ ([] : List Char)), wordsAux_word w [] [] hw.2]
      simp [wordsAux, hw.1]
    | cons w2 rest =>
      show words (w ++ ' ' :: joinWords (w2 :: rest)) = w :: w2 :: rest
      unfold words
      rw [wordsAux_word w (' ' :: joinWords (w2 :: rest)) [] hw.2]
      have hsp : isWs ' ' = true := by decide
      have hne : w.reverse ++ ([] : List Char) ≠ [] := by simp [hw.1]
      simp only [wordsAux, hsp, if_true, hne, if_false]
      have hrec := ih (fun x hx => hgood x (by simp [hx]))
      unfold words at hrec
      rw [hrec]
      simp [hw.1]

/-- Ceiling bound: `n ≤ ceil(n/m) * m` for `m ≥ 1`. -/
theorem le_ceil_mul (n m : Nat) (hm : 1 ≤ m) : n ≤ ((n + m - 1) / m) * m := by
  have hdm := Nat.div_add_mod (n + m - 1) m
  have hlt : (n + m - 1) % m < m := Nat.mod_lt _ (by omega)
  have hmul : m * ((n + m - 1) / m) = ((n + m - 1) / m) * m := Nat.mul_comm _ _
  omega

/-- Auxiliary join lemma: taking `k` consecutive `m`-windows of `l`
covers all of `l` as soon as `k * m ≥ |l|`. -/
theorem join_windows (m : Nat) : ∀ (k : Nat) (l : List α), l.length ≤ k * m →
    ((List.range k).map fun j => (l.drop (j * m)).take m).flatten = l := by
  intro k
  induction k with
  | zero =>
    intro l hl
    simp at hl
    simp [hl]
  | succ k ih =>
    intro l hl
    rw [List.range_succ_eq_map]
    simp only [List.map_cons, List.map_map]
    have hcomp :
        ((fun j => (l.drop (j * m)).take m) ∘ Nat.succ) =
          fun j => ((l.drop m).drop (j * m)).take m := by
      funext j
      simp only [Function.comp_apply, List.drop_drop]
      congr 1
      simp only [Nat.succ_eq_add_one]
      ring
    rw [hcomp]
    have hrest : (l.drop m).length ≤ k * m := by
      rw [List.length_drop]
      have hexp : (k + 1) * m = k * m + m := by ring
      omega
    have hIH := ih (l.drop m) hrest
    simp only [List.flatten_cons]
    rw [hIH]
    simp [List.take_append_drop]

/-- The windows of `groupsOf` concatenate back to the original list. -/
theorem groupsOf_join (m : Nat) (hm : 1 ≤ m) (l : List α) :
    (groupsOf m l).flatten = l :=
  join_windows m _ l (le_ceil_mul l.length m hm)

/-- `groupsOf` produces `ceil(n/m)` windows. -/
theorem groupsOf_length (m : Nat) (l : List α) :
    (groupsOf m l).length = (l.length + m - 1) / m := by
  simp [groupsOf]

/-- Every window of `groupsOf` has at most `m` elements. -/
theorem groupsOf_window_le (m : Nat) (l : List α) :
    ∀ g ∈ groupsOf m l, g.length ≤ m := by
  intro g hg
  simp only [groupsOf, List.mem_map, List.mem_range] at hg
  obtain ⟨j, _, rfl⟩ := hg
  rw [List.length_take]
  exact Nat.min_le_left _ _

/-- Every element of a window of `groupsOf` is an element of the
original list. -/
theorem groupsOf_window_subset (m : Nat) (l : List α) :
    ∀ g ∈ groupsOf m l, ∀ x ∈ g, x ∈ l := by
  intro g hg x hx
  simp only [groupsOf, List.mem_map, List.mem_range] at hg
  obtain ⟨j, _, rfl⟩ := hg
  exact List.drop_subset _ _ (List.mem_of_mem_take hx)

/-- For `m ≥ 1`, every window of `groupsOf` is non-empty. -/
theorem groupsOf_window_ne_nil (m : Nat) (hm : 1 ≤ m) (l : List α) :
    ∀ g ∈ groupsOf m l, g ≠ [] := by
  intro g hg
  simp only [groupsOf, List.mem_map, List.mem_range] at hg
  obtain ⟨j, hj, rfl⟩ := hg
  have hjm : j * m < l.length := by
    by_contra hge
    push_neg at hge
    have hexp : (j + 1) * m = j * m + m := by ring
    have : (l.length + m - 1) / m < j + 1 := by
      rw [Nat.div_lt_iff_lt_mul (by omega : 0 < m)]
      omega
    omega
  have hd : l.drop (j * m) ≠ [] := by
    intro hnil
    have := List.length_drop (j * m) l
    rw [hnil] at this
    simp at this
    omega
  intro hnil
  rw [List.take_eq_nil_iff] at hnil
  rcases hnil with h | h
  · omega
  · exact hd h

/-- A non-empty `dropWhile` result contains an element failing the
predicate (its head). -/
theorem dropWhile_has_fail (p : α → Bool) : ∀ (l : List α),
    List.dropWhile p l ≠ [] → ∃ x ∈ List.dropWhile p l, p x = false := by
  intro l
  induction l with
  | nil => intro h; simp [List.dropWhile] at h
  | cons c rest ih =>
    intro h
    by_cases hc : p c = true
    · simp only [List.dropWhile, hc, if_true] at h ⊢
      exact ih h
    · simp only [Bool.not_eq_true] at hc
      simp only [List.dropWhile, hc, Bool.false_eq_true, if_false]
      exact ⟨c, by simp, hc⟩

/-- A non-empty stripped text contains a non-whitespace character. -/
theorem strip_has_nonWs (s : List Char) (h : strip s ≠ []) :
    ∃ c ∈ strip s, isWs c = false := by
  unfold strip at h ⊢
  set r := ((s.dropWhile isWs).reverse.dropWhile isWs) with hr
  have hrne : r ≠ [] := by
    intro hnil
    rw [hnil] at h
    simp at h
  obtain ⟨x, hx, hpx⟩ := dropWhile_has_fail isWs _ hrne
  exact ⟨x, List.mem_reverse.mpr hx, hpx⟩

/-- A space-join of non-empty whitespace-free words (at least one) is
non-empty and contains a non-whitespace character. -/
theorem joinWords_has_content (g : List (List Char)) (hg : g ≠ [])
    (hgood : ∀ w ∈ g, w ≠ [] ∧ ∀ ch ∈ w, isWs ch = false) :
    joinWords g ≠ [] ∧ ∃ ch ∈ joinWords g, isWs ch = false := by
  cases g with
  | nil => exact absurd rfl hg
  | cons w rest =>
    have hw := hgood w (by simp)
    obtain ⟨c0, hc0⟩ := List.exists_mem_of_ne_nil w hw.1
    cases rest with
    | nil => exact ⟨hw.1, c0, hc0, hw.2 c0 hc0⟩
    | cons w2 r2 =>
      constructor
      · show w ++ ' ' :: joinWords (w2 :: r2) ≠ []
        simp
      · refine ⟨c0, ?_, hw.2 c0 hc0⟩
        show c0 ∈ w ++ ' ' :: joinWords (w2 :: r2)
        exact List.mem_append_left _ hc0

/-! ## Claim theorems: chunking -/

/-- C2: for text that is non-empty after trimming and `max_words ≥ 1`,
`chunk_text` returns the trimmed input as a single chunk when its token
count is at most `max_words`; when the token count `n` exceeds
`max_words` it returns `ceil(n / max_words)` chunks, each of at most
`max_words` words, whose word sequences concatenate in order to the
input's token sequence. -/
theorem chunk_text_correct (text : List Char) (max_words : Nat)
    (hne : strip text ≠ []) (hmw : 1 ≤ max_words) :
    ((words (strip text)).length ≤ max_words →
      chunk_text text max_words = .ok [strip text]) ∧
    (max_words < (words (strip text)).length →
      ∃ cs, chunk_text text max_words = .ok cs ∧
        cs.length = ((words (strip text)).length + max_words - 1) / max_words ∧
        (∀ c ∈ cs, (words c).length ≤ max_words) ∧
        (cs.map words).flatten = words (strip text)) := by
  constructor
  · intro hle
    unfold chunk_text
    simp [hne, Nat.not_lt.mpr hmw, hle]
  · intro hgt
    refine ⟨(groupsOf max_words (words (strip text))).map joinWords, ?_, ?_, ?_, ?_⟩
    · unfold chunk_text
      simp [hne, Nat.not_lt.mpr hmw, Nat.not_le.mpr hgt]
    · rw [List.length_map, groupsOf_length]
    · intro c hc
      obtain ⟨g, hg, rfl⟩ := List.mem_map.mp hc
      have hgood : ∀ w ∈ g, w ≠ [] ∧ ∀ ch ∈ w, isWs ch = false :=
        fun w hw => words_good _ w (groupsOf_window_subset _ _ g hg w hw)
      rw [words_joinWords g hgood]
      exact groupsOf_window_le _ _ g hg
    · rw [List.map_map]
      have hmapid :
          (groupsOf max_words (words (strip text))).map (words ∘ joinWords) =
            groupsOf max_words (words (strip text)) := by
        have := List.map_congr_left (l := groupsOf max_words (words (strip text)))
          (f := words ∘ joinWords) (g := id) ?_
        · rw [this, List.map_id]
        · intro g hg
          have hgood : ∀ w ∈ g, w ≠ [] ∧ ∀ ch ∈ w, isWs ch = false :=
            fun w hw => words_good _ w (groupsOf_window_subset _ _ g hg w hw)
          simp only [Function.comp_apply, id]
          exact words_joinWords g hgood
      rw [hmapid]
      exact groupsOf_join max_words hmw _

/-- Witness for C2 at a concrete input (single-chunk case). -/
theorem chunk_text_correct_witness :
    chunk_text ['a', ' ', 'b'] 5 = .ok [strip ['a', ' ', 'b']] :=
  (chunk_text_correct ['a', ' ', 'b'] 5 (by decide) (by decide)).1 (by decide)

/-- C10: every chunk produced by a successful `chunk_text` call is
non-empty and contains a non-whitespace character, so it passes
`get_embedding`'s non-empty-text check: on any such chunk,
`get_embedding` proceeds directly to the api-key check and the
response handling. -/
theorem chunk_text_chunks_satisfy_embedding_precondition
    (text : List Char) (max_words : Nat)
    (hne : strip text ≠ []) (hmw : 1 ≤ max_words) :
    ∀ cs, chunk_text text max_words = .ok cs →
      ∀ c ∈ cs, 0 < c.length ∧ (∃ ch ∈ c, isWs ch = false) ∧
        ∀ (key : Option (List Char)) (resp : Json),
          get_embedding c key resp =
            if key = none ∨ key = some [] then
              .error (.invalidArg "An API key must be supplied via the api_key argument.")
            else parseEmbeddingResponse resp := by
  intro cs hcs c hc
  have hmain : c ≠ [] ∧ ∃ ch ∈ c, isWs ch = false := by
    unfold chunk_text at hcs
    by_cases hle : (words (strip text)).length ≤ max_words
    · simp [hne, Nat.not_lt.mpr hmw, hle] at hcs
      subst hcs
      simp at hc
      subst hc
      exact ⟨hne, strip_has_nonWs text hne⟩
    · simp [hne, Nat.not_lt.mpr hmw, hle] at hcs
      subst hcs
      obtain ⟨g, hg, rfl⟩ := List.mem_map.mp hc
      have hgood : ∀ w ∈ g, w ≠ [] ∧ ∀ ch ∈ w, isWs ch = false :=
        fun w hw => words_good _ w (groupsOf_window_subset _ _ g hg w hw)
      exact joinWords_has_content g (groupsOf_window_ne_nil _ hmw _ g hg) hgood
  have hpos : 0 < c.length := List.length_pos.mpr hmain.1
  refine ⟨hpos, hmain.2, ?_⟩
  intro key resp
  simp [get_embedding, hpos]

/-- Witness for C10 at a concrete input: the chunk passes the text
check and `get_embedding` reaches the response handling. -/
theorem chunk_text_chunks_satisfy_embedding_precondition_witness :
    0 < (['a', ' ', 'b'] : List Char).length ∧
    get_embedding ['a', ' ', 'b'] (some ['k'])
      (.jobj [(['d', 'a', 't', 'a'],
              .jarr [.jobj [(['e', 'm', 'b', 'e', 'd', 'd', 'i', 'n', 'g'],
                            .jarr [.jnum 3])]])]) = .ok [3] := by
  have h := chunk_text_chunks_satisfy_embedding_precondition ['a', ' ', 'b'] 5
    (by decide) (by decide) [['a', ' ', 'b']] (by decide) ['a', ' ', 'b'] (by decide)
  refine ⟨h.1, ?_⟩
  rw [h.2.2]
  decide

/-! ## Lemmas about search and lookup -/

/-- Positions produced by `scoreVecs` lie in
`[start, start + number of vectors)`. -/
theorem scoreVecs_pos_bound (q : Vec) : ∀ (vs : List Vec) (start : Nat),
    ∀ p ∈ scoreVecs q vs start, start ≤ p.2 ∧ p.2 < start + vs.length := by
  intro vs
  induction vs with
  | nil => intro start p hp; simp [scoreVecs] at hp
  | cons v rest ih =>
    intro start p hp
    simp only [scoreVecs, List.mem_cons] at hp
    rcases hp with rfl | hp
    · simp
    · have hb := ih (start + 1) p hp
      simp only [List.length_cons]
      omega

/-- When `k` does not exceed the index size, every entry of the search
row is a genuine position: non-negative and smaller than `ntotal` (no
`-1` padding occurs). -/
theorem searchIndex_pos_bound (idx : FaissIndex) (q : Vec) (k : Nat)
    (hk : k ≤ idx.ntotal) :
    ∀ i ∈ searchIndex idx q k, 0 ≤ i ∧ i.toNat < idx.ntotal := by
  intro i hi
  unfold searchIndex at hi
  have hpad : k - idx.vecs.length = 0 := by
    unfold FaissIndex.ntotal at hk; omega
  rw [hpad] at hi
  simp only [List.replicate_zero, List.append_nil] at hi
  obtain ⟨p, hp, rfl⟩ := List.mem_map.mp hi
  have hsorted : p ∈ rankOrder (scoreVecs q idx.vecs 0) := List.mem_of_mem_take hp
  have hscored : p ∈ scoreVecs q idx.vecs 0 := by
    unfold rankOrder at hsorted
    exact (List.mem_insertionSort _).mp hsorted
  have hb := scoreVecs_pos_bound q idx.vecs 0 p hscored
  refine ⟨Int.natCast_nonneg _, ?_⟩
  rw [Int.toNat_natCast]
  unfold FaissIndex.ntotal
  omega

/-- `pyGet` succeeds on every in-range non-negative index. -/
theorem pyGet_ok (mapping : List Chunk) (i : Int)
    (h0 : 0 ≤ i) (hlt : i.toNat < mapping.length) :
    pyGet mapping i = .ok (mapping.get ⟨i.toNat, hlt⟩) := by
  unfold pyGet
  have hneg : ¬ i < 0 := by omega
  simp only [hneg, if_false]
  rw [dif_pos ⟨h0, hlt⟩]

/-- `pyGetAll` succeeds when every index is non-negative and
in range. -/
theorem pyGetAll_ok (mapping : List Chunk) : ∀ (l : List Int),
    (∀ i ∈ l, 0 ≤ i ∧ i.toNat < mapping.length) →
    ∃ cs, pyGetAll mapping l = .ok cs := by
  intro l
  induction l with
  | nil => intro _; exact ⟨[], rfl⟩
  | cons i rest ih =>
    intro h
    have hi := h i (by simp)
    obtain ⟨cs, hcs⟩ := ih (fun j hj => h j (by simp [hj]))
    refine ⟨mapping.get ⟨i.toNat, hi.2⟩ :: cs, ?_⟩
    unfold pyGetAll
    rw [pyGet_ok mapping i hi.1 hi.2, hcs]

/-! ## Claim theorems: retrieval -/

/-- C1: `retrieve_top_k` raises an invalid-argument error on an empty
query or `k < 1` before any embedding or search (the result is the
fixed error for every embedding oracle); otherwise it embeds the query,
raises a dimension-mismatch error (naming the query and the lengths)
when the query embedding's length differs from `EMBEDDING_DIM = 1536`,
and otherwise searches the index with the clamped
`min(k, len(mapping))` and returns the mapping lookups of the returned
positions in rank order. -/
theorem retrieve_top_k_spec (query : List Char) (index : FaissIndex)
    (mapping : List Chunk) (k : Int)
    (embed : List Char → Except RagError Vec) :
    (query = [] →
      retrieve_top_k query index mapping k embed =
        .error (.invalidArg "Query must be a non-empty string.")) ∧
    (query ≠ [] → k < 1 →
      retrieve_top_k query index mapping k embed =
        .error (.invalidArg "k must be a positive integer.")) ∧
    (∀ qe, query ≠ [] → 1 ≤ k → embed query = .ok qe →
      qe.length ≠ EMBEDDING_DIM →
      retrieve_top_k query index mapping k embed =
        .error (.dimMismatch query EMBEDDING_DIM qe.length)) ∧
    (∀ qe, query ≠ [] → 1 ≤ k → embed query = .ok qe →
      qe.length = EMBEDDING_DIM →
      retrieve_top_k query index mapping k embed =
        pyGetAll mapping
          ((searchIndex index qe (min k (mapping.length : Int)).toNat).filter
            fun i => decide (0 ≤ i))) := by
  refine ⟨?_, ?_, ?_, ?_⟩
  · intro hq
    simp [retrieve_top_k, hq]
  · intro hq hk
    simp [retrieve_top_k, hq, show k ≤ 0 by omega]
  · intro qe hq hk he hd
    simp [retrieve_top_k, hq, show ¬ k ≤ 0 by omega, he, hd]
  · intro qe hq hk he hd
    simp [retrieve_top_k, hq, show ¬ k ≤ 0 by omega, he, hd]

/-- Witness for C1 at a concrete input (search branch). -/
theorem retrieve_top_k_spec_witness :
    retrieve_top_k ['q'] ⟨EMBEDDING_DIM, [List.replicate 1536 (0 : Int)]⟩
      [['a']] 2 (fun _ => .ok (List.replicate 1536 (0 : Int))) = .ok [['a']] := by
  have h := (retrieve_top_k_spec ['q']
      ⟨EMBEDDING_DIM, [List.replicate 1536 (0 : Int)]⟩ [['a']] 2
      (fun _ => .ok (List.replicate 1536 (0 : Int)))).2.2.2
      (List.replicate 1536 (0 : Int)) (by decide) (by decide) rfl
      (by rw [List.length_replicate]; rfl)
  rw [h]
  simp [searchIndex, rankOrder, scoreVecs, List.insertionSort, pyGetAll, pyGet,
    FaissIndex.ntotal]

/-- C8: under the invariant `len(mapping) = index.ntotal`, every
position surviving the `i ≥ 0` sentinel filter of `retrieve_top_k` is
in range for the mapping lookup, and the retrieval therefore returns
normally (never an `IndexError`). -/
theorem retrieve_top_k_positions_safe (query : List Char)
    (index : FaissIndex) (mapping : List Chunk) (k : Int)
    (embed : List Char → Except RagError Vec) (qe : Vec)
    (hlen : mapping.length = index.ntotal)
    (hq : query ≠ []) (hk : 1 ≤ k) (he : embed query = .ok qe)
    (hd : qe.length = EMBEDDING_DIM) :
    (∀ i ∈ (searchIndex index qe (min k (mapping.length : Int)).toNat).filter
        (fun i => decide (0 ≤ i)), 0 ≤ i ∧ i.toNat < mapping.length) ∧
    ∃ cs, retrieve_top_k query index mapping k embed = .ok cs := by
  have hkle : (min k (mapping.length : Int)).toNat ≤ index.ntotal := by
    rw [← hlen, Int.toNat_le]
    exact min_le_right _ _
  have hbound : ∀ i ∈ (searchIndex index qe
      (min k (mapping.length : Int)).toNat).filter (fun i => decide (0 ≤ i)),
      0 ≤ i ∧ i.toNat < mapping.length := by
    intro i hi
    have hmem := (List.mem_filter.mp hi).1
    have := searchIndex_pos_bound index qe _ hkle i hmem
    omega
  refine ⟨hbound, ?_⟩
  obtain ⟨cs, hcs⟩ := pyGetAll_ok mapping _ hbound
  refine ⟨cs, ?_⟩
  rw [show retrieve_top_k query index mapping k embed =
      pyGetAll mapping
        ((searchIndex index qe (min k (mapping.length : Int)).toNat).filter
          fun i => decide (0 ≤ i)) from by
    simp [retrieve_top_k, hq, show ¬ k ≤ 0 by omega, he, hd]]
  exact hcs

/-- Witness for C8 at a concrete input. -/
theorem retrieve_top_k_positions_safe_witness :
    (∀ i ∈ (searchIndex ⟨EMBEDDING_DIM, [List.replicate 1536 (0 : Int)]⟩
        (List.replicate 1536 (0 : Int))
        (min 2 (([['a']] : List Chunk).length : Int)).toNat).filter
        (fun i => decide (0 ≤ i)), 0 ≤ i ∧ i.toNat < ([['a']] : List Chunk).length) ∧
    ∃ cs, retrieve_top_k ['q'] ⟨EMBEDDING_DIM, [List.replicate 1536 (0 : Int)]⟩
      [['a']] 2 (fun _ => .ok (List.replicate 1536 (0 : Int))) = .ok cs :=
  retrieve_top_k_positions_safe ['q']
    ⟨EMBEDDING_DIM, [List.replicate 1536 (0 : Int)]⟩ [['a']] 2
    (fun _ => .ok (List.replicate 1536 (0 : Int)))
    (List.replicate 1536 (0 : Int))
    rfl (by decide) (by decide) rfl
    (by rw [List.length_replicate]; rfl)

/-! ## Lemmas about index build and load -/

/-- When at least one artifact is missing, `load_faiss_index` takes the
rebuild branch. -/
theorem load_faiss_index_rebuild (fs : FS)
    (embed : Chunk → Except RagError Vec)
    (hnotboth : fs.indexFile = none ∨ fs.mappingFile = none) :
    load_faiss_index fs embed =
      match build_from_data fs.dataFile embed with
      | .error e => (.error e, fs)
      | .ok (index, mapping) =>
        (.ok (index, mapping),
         { fs with indexFile := some index, mappingFile := some mapping }) := by
  obtain ⟨iF, mF, dF⟩ := fs
  rcases hnotboth with h | h
  · simp only at h
    subst h
    rfl
  · simp only at h
    subst h
    cases iF <;> rfl

/-- The embedding loop aborts with a dimension-mismatch error naming
the first chunk whose embedding has the wrong length. -/
theorem embed_chunks_first_mismatch (embed : Chunk → Except RagError Vec) :
    ∀ (pre : List Chunk) (c : Chunk) (post : List Chunk) (emb : Vec),
    (∀ c' ∈ pre, ∃ v, embed c' = .ok v ∧ v.length = EMBEDDING_DIM) →
    embed c = .ok emb → emb.length ≠ EMBEDDING_DIM →
    embed_chunks embed (pre ++ c :: post) =
      .error (.dimMismatch c EMBEDDING_DIM emb.length) := by
  intro pre
  induction pre with
  | nil =>
    intro c post emb _ hc hbad
    simp only [List.nil_append]
    unfold embed_chunks
    rw [hc]
    simp [hbad]
  | cons c' pre' ih =>
    intro c post emb hpre hc hbad
    obtain ⟨v, hv, hvlen⟩ := hpre c' (by simp)
    simp only [List.cons_append]
    unfold embed_chunks
    rw [hv]
    simp only [hvlen, ne_eq, not_true_eq_false, if_false]
    rw [ih c post emb (fun x hx => hpre x (by simp [hx])) hc hbad]

/-- C3: when both persisted artifacts exist and the loaded mapping's
length differs from the loaded index's vector count, `load_faiss_index`
raises the consistency error and leaves the filesystem unchanged; it
never returns an (index, mapping) pair. -/
theorem load_faiss_index_mismatch_raises (fs : FS)
    (embed : Chunk → Except RagError Vec) (index : FaissIndex)
    (mapping : List Chunk)
    (hI : fs.indexFile = some index) (hM : fs.mappingFile = some mapping)
    (hlen : mapping.length ≠ index.ntotal) :
    load_faiss_index fs embed =
      (.error (.consistency
        "Number of chunks in the mapping does not match the number of chunks in the index."),
       fs) := by
  unfold load_faiss_index
  rw [hI, hM]
  simp [hlen]

/-- Witness for C3 at a concrete input. -/
theorem load_faiss_index_mismatch_raises_witness :
    load_faiss_index ⟨some ⟨EMBEDDING_DIM, [[1]]⟩, some [], some ['a']⟩
        (fun _ => .ok []) =
      (.error (.consistency
        "Number of chunks in the mapping does not match the number of chunks in the index."),
       ⟨some ⟨EMBEDDING_DIM, [[1]]⟩, some [], some ['a']⟩) :=
  load_faiss_index_mismatch_raises _ _ ⟨EMBEDDING_DIM, [[1]]⟩ [] rfl rfl
    (by decide)

/-- C4: during a fresh build (at least one artifact missing), if the
first chunk with a bad embedding has length `≠ EMBEDDING_DIM`, the
build aborts with a dimension-mismatch error naming that chunk, and
neither artifact is written: the filesystem is returned unchanged. -/
theorem load_faiss_index_build_dim_mismatch (fs : FS)
    (embed : Chunk → Except RagError Vec) (text : List Char)
    (pre post : List Chunk) (c : Chunk) (emb : Vec)
    (hnotboth : fs.indexFile = none ∨ fs.mappingFile = none)
    (hdata : fs.dataFile = some text)
    (hchunks : chunk_text text 100 = .ok (pre ++ c :: post))
    (hpre : ∀ c' ∈ pre, ∃ v, embed c' = .ok v ∧ v.length = EMBEDDING_DIM)
    (hc : embed c = .ok emb) (hbad : emb.length ≠ EMBEDDING_DIM) :
    load_faiss_index fs embed =
      (.error (.dimMismatch c EMBEDDING_DIM emb.length), fs) := by
  have hbuild : build_from_data fs.dataFile embed =
      .error (.dimMismatch c EMBEDDING_DIM emb.length) := by
    rw [hdata]
    simp only [build_from_data]
    rw [hchunks]
    have hne : pre ++ c :: post ≠ [] := by simp
    simp only [hne, if_false]
    rw [embed_chunks_first_mismatch embed pre c post emb hpre hc hbad]
  rw [load_faiss_index_rebuild fs embed hnotboth, hbuild]

/-- Witness for C4 at a concrete input: a one-chunk document whose
embedding is 2-dimensional. -/
theorem load_faiss_index_build_dim_mismatch_witness :
    load_faiss_index ⟨none, none, some ['a']⟩ (fun _ => .ok [5, 7]) =
      (.error (.dimMismatch ['a'] EMBEDDING_DIM 2),
       ⟨none, none, some ['a']⟩) :=
  load_faiss_index_build_dim_mismatch ⟨none, none, some ['a']⟩
    (fun _ => .ok [5, 7]) ['a'] [] [] ['a'] [5, 7]
    (Or.inl rfl) rfl (by decide) (by simp) rfl (by decide)

/-- A successful embedding loop returns the chunk list itself as the
mapping, and one embedding of length `EMBEDDING_DIM` per chunk. -/
theorem embed_chunks_ok_shapes (embed : Chunk → Except RagError Vec) :
    ∀ (chunks : List Chunk) (mapping : List Chunk) (embeddings : List Vec),
    embed_chunks embed chunks = .ok (mapping, embeddings) →
    mapping = chunks ∧ embeddings.length = chunks.length := by
  intro chunks
  induction chunks with
  | nil =>
    intro mapping embeddings h
    unfold embed_chunks at h
    simp at h
    simp [h.1, h.2]
  | cons c cs ih =>
    intro mapping embeddings h
    unfold embed_chunks at h
    cases hc : embed c with
    | error e => rw [hc] at h; simp at h
    | ok emb =>
      rw [hc] at h
      by_cases hlen : emb.length ≠ EMBEDDING_DIM
      · simp [hlen] at h
      · simp only [hlen, if_false] at h
        cases hrec : embed_chunks embed cs with
        | error e => rw [hrec] at h; simp at h
        | ok p =>
          obtain ⟨m', es'⟩ := p
          rw [hrec] at h
          simp only [Except.ok.injEq, Prod.mk.injEq] at h
          obtain ⟨hm, hes⟩ := h
          have := ih m' es' hrec
          subst hm hes
          simp [this.1, this.2]

/-- A successfully built index stores exactly one vector per mapping
entry. -/
theorem build_from_data_ok_inv (dF : Option (List Char))
    (embed : Chunk → Except RagError Vec)
    (idx : FaissIndex) (m : List Chunk)
    (h : build_from_data dF embed = .ok (idx, m)) :
    idx.ntotal = m.length := by
  cases dF with
  | none => simp [build_from_data] at h
  | some text =>
    simp only [build_from_data] at h
    cases hct : chunk_text text 100 with
    | error e => rw [hct] at h; simp at h
    | ok chunks =>
      rw [hct] at h
      by_cases hnil : chunks = []
      · simp [hnil] at h
      · simp only [hnil, if_false] at h
        cases hec : embed_chunks embed chunks with
        | error e => rw [hec] at h; simp at h
        | ok p =>
          obtain ⟨mapping, embeddings⟩ := p
          rw [hec] at h
          have hshapes := embed_chunks_ok_shapes embed chunks mapping embeddings hec
          have hci : create_index embeddings = .ok ⟨EMBEDDING_DIM, embeddings⟩ := by
            unfold create_index
            rw [if_pos (show INDEX_TYPE = "FlatL2" from rfl)]
          simp only [hci, Except.ok.injEq, Prod.mk.injEq] at h
          obtain ⟨hidx, hm⟩ := h
          subst hidx
          subst hm
          simp [FaissIndex.ntotal, hshapes.1, hshapes.2]

/-- C5: after a successful fresh build that persisted both artifacts, a
subsequent `load_faiss_index` (with any embedding oracle — nothing is
re-embedded) loads a pair whose mapping is identical and whose index
returns identical search rows for every query and every `k`. -/
theorem persist_then_load_roundtrip (fs fs2 : FS)
    (embed embed2 : Chunk → Except RagError Vec)
    (idx : FaissIndex) (m : List Chunk)
    (hnotboth : fs.indexFile = none ∨ fs.mappingFile = none)
    (hbuild : load_faiss_index fs embed = (.ok (idx, m), fs2)) :
    ∃ idx2 m2, load_faiss_index fs2 embed2 = (.ok (idx2, m2), fs2) ∧
      m2 = m ∧ ∀ q k, searchIndex idx2 q k = searchIndex idx q k := by
  rw [load_faiss_index_rebuild fs embed hnotboth] at hbuild
  cases hb : build_from_data fs.dataFile embed with
  | error e => rw [hb] at hbuild; simp at hbuild
  | ok p =>
    obtain ⟨idx', m'⟩ := p
    rw [hb] at hbuild
    simp only [Prod.mk.injEq, Except.ok.injEq] at hbuild
    obtain ⟨⟨hidx, hm⟩, hfs2⟩ := hbuild
    have hinv := build_from_data_ok_inv fs.dataFile embed idx' m' hb
    refine ⟨idx', m', ?_, hm, fun q k => by rw [hidx]⟩
    subst hfs2
    unfold load_faiss_index
    simp [hinv]

/-- One successful step of the embedding loop, stated symbolically so
that concrete `EMBEDDING_DIM`-sized vectors never have to be evaluated
element by element. -/
theorem embed_chunks_cons_ok (embed : Chunk → Except RagError Vec)
    (c : Chunk) (cs : List Chunk) (v : Vec) (m : List Chunk) (es : List Vec)
    (hv : embed c = .ok v) (hlen : v.length = EMBEDDING_DIM)
    (hrec : embed_chunks embed cs = .ok (m, es)) :
    embed_chunks embed (c :: cs) = .ok (c :: m, v :: es) := by
  unfold embed_chunks
  rw [hv]
  simp only [hlen, ne_eq, not_true_eq_false, if_false]
  rw [hrec]

/-- Witness for C5 at a concrete input: build from a one-character
document, then reload. -/
theorem persist_then_load_roundtrip_witness :
    ∃ idx2 m2,
      load_faiss_index
          ⟨some ⟨EMBEDDING_DIM, [List.replicate 1536 (0 : Int)]⟩,
           some [['a']], some ['a']⟩ (fun _ => .ok []) =
        (.ok (idx2, m2),
         ⟨some ⟨EMBEDDING_DIM, [List.replicate 1536 (0 : Int)]⟩,
          some [['a']], some ['a']⟩) ∧
      m2 = [['a']] ∧
      ∀ q k, searchIndex idx2 q k =
        searchIndex ⟨EMBEDDING_DIM, [List.replicate 1536 (0 : Int)]⟩ q k := by
  refine persist_then_load_roundtrip ⟨none, none, some ['a']⟩ _
    (fun _ => .ok (List.replicate 1536 (0 : Int))) (fun _ => .ok [])
    ⟨EMBEDDING_DIM, [List.replicate 1536 (0 : Int)]⟩ [['a']]
    (Or.inl rfl) ?_
  rw [load_faiss_index_rebuild _ _ (Or.inl rfl)]
  have hdim : (List.replicate 1536 (0 : Int)).length = EMBEDDING_DIM := by
    rw [List.length_replicate]; rfl
  have hec : embed_chunks (fun _ => .ok (List.replicate 1536 (0 : Int)))
      [['a']] = .ok ([['a']], [List.replicate 1536 (0 : Int)]) :=
    embed_chunks_cons_ok _ ['a'] [] _ [] [] rfl hdim rfl
  have hb : build_from_data (some ['a'])
      (fun _ => .ok (List.replicate 1536 (0 : Int))) =
      .ok (⟨EMBEDDING_DIM, [List.replicate 1536 (0 : Int)]⟩, [['a']]) := by
    simp only [build_from_data]
    rw [show chunk_text ['a'] 100 = .ok [['a']] from by decide]
    simp only [List.cons_ne_nil, if_false, ite_false]
    rw [hec]
    have hci : create_index [List.replicate 1536 (0 : Int)] =
        .ok ⟨EMBEDDING_DIM, [List.replicate 1536 (0 : Int)]⟩ := by
      unfold create_index
      rw [if_pos (show INDEX_TYPE = "FlatL2" from rfl)]
    simp only [hci]
  rw [hb]

/-- Any error of `chunk_text` is an invalid-argument error. -/
theorem chunk_text_error_shape (text : List Char) (mw : Nat) (e : RagError)
    (h : chunk_text text mw = .error e) : ∃ msg, e = .invalidArg msg := by
  unfold chunk_text at h
  by_cases h1 : strip text = []
  · simp [h1] at h
    exact ⟨_, h.symm⟩
  · simp only [h1, if_false] at h
    by_cases h2 : mw < 1
    · simp [h2] at h
      exact ⟨_, h.symm⟩
    · simp only [h2, if_false] at h
      by_cases h3 : (words (strip text)).length ≤ mw <;> simp [h3] at h

/-- An error of the embedding loop is either an error of the embedding
oracle itself or a dimension mismatch. -/
theorem embed_chunks_error_source (embed : Chunk → Except RagError Vec) :
    ∀ (chunks : List Chunk) (e : RagError),
    embed_chunks embed chunks = .error e →
    (∃ c ∈ chunks, embed c = .error e) ∨
      ∃ c l, e = .dimMismatch c EMBEDDING_DIM l := by
  intro chunks
  induction chunks with
  | nil => intro e h; simp [embed_chunks] at h
  | cons c cs ih =>
    intro e h
    unfold embed_chunks at h
    cases hc : embed c with
    | error e2 =>
      rw [hc] at h
      simp only [Except.error.injEq] at h
      subst h
      exact Or.inl ⟨c, by simp, hc⟩
    | ok emb =>
      rw [hc] at h
      simp only [ne_eq] at h
      by_cases hlen : emb.length = EMBEDDING_DIM
      · rw [if_neg (not_not_intro hlen)] at h
        revert h
        cases hrec : embed_chunks embed cs with
        | error e3 =>
          intro h
          simp only [Except.error.injEq] at h
          subst h
          rcases ih _ hrec with ⟨c2, hc2, he2⟩ | hdim
          · exact Or.inl ⟨c2, by simp [hc2], he2⟩
          · exact Or.inr hdim
        | ok p =>
          obtain ⟨m2, es2⟩ := p
          intro h
          simp at h
      · rw [if_pos hlen] at h
        simp only [Except.error.injEq] at h
        exact Or.inr ⟨c, emb.length, h.symm⟩

/-- The rebuild branch never raises the consistency error (assuming the
embedding oracle does not, which `get_embedding` cannot). -/
theorem build_from_data_no_consistency (dF : Option (List Char))
    (embed : Chunk → Except RagError Vec)
    (hembed : ∀ c msg, embed c ≠ .error (.consistency msg)) :
    ∀ msg, build_from_data dF embed ≠ .error (.consistency msg) := by
  intro msg h
  cases dF with
  | none => simp [build_from_data] at h
  | some text =>
    simp only [build_from_data] at h
    cases hct : chunk_text text 100 with
    | error e =>
      rw [hct] at h
      simp only [Except.error.injEq] at h
      obtain ⟨m2, hm2⟩ := chunk_text_error_shape text 100 e hct
      rw [hm2] at h
      exact RagError.noConfusion h
    | ok chunks =>
      rw [hct] at h
      by_cases hnil : chunks = []
      · simp [hnil] at h
      · simp only [hnil, if_false] at h
        cases hec : embed_chunks embed chunks with
        | error e =>
          rw [hec] at h
          simp only [Except.error.injEq] at h
          subst h
          rcases embed_chunks_error_source embed chunks _ hec with ⟨c, _, he⟩ | ⟨c, l, he⟩
          · exact hembed c msg he
          · exact RagError.noConfusion he
        | ok p =>
          obtain ⟨mapping, embeddings⟩ := p
          rw [hec] at h
          have hci : create_index embeddings = .ok ⟨EMBEDDING_DIM, embeddings⟩ := by
            unfold create_index
            rw [if_pos (show INDEX_TYPE = "FlatL2" from rfl)]
          simp only [hci] at h
          exact Except.noConfusion h

/-- C9: when exactly one persisted artifact exists, `load_faiss_index`
behaves exactly as if neither existed: its returned value coincides
with a load on an artifact-free filesystem, on success it overwrites
both artifacts with the freshly built pair, and it never raises the
consistency error (granted the embedding oracle raises none, as
`get_embedding` cannot). -/
theorem single_artifact_rebuilds (fs : FS)
    (embed : Chunk → Except RagError Vec)
    (hxor : fs.indexFile.isSome ≠ fs.mappingFile.isSome)
    (hembed : ∀ c msg, embed c ≠ .error (.consistency msg)) :
    ((load_faiss_index fs embed).1 =
      (load_faiss_index ⟨none, none, fs.dataFile⟩ embed).1) ∧
    (∀ idx m, (load_faiss_index fs embed).1 = .ok (idx, m) →
      (load_faiss_index fs embed).2 = ⟨some idx, some m, fs.dataFile⟩) ∧
    (∀ msg, (load_faiss_index fs embed).1 ≠ .error (.consistency msg)) := by
  have hnotboth : fs.indexFile = none ∨ fs.mappingFile = none := by
    cases hI : fs.indexFile <;> cases hM : fs.mappingFile <;>
      simp [hI, hM] at hxor ⊢
  rw [load_faiss_index_rebuild fs embed hnotboth,
      load_faiss_index_rebuild ⟨none, none, fs.dataFile⟩ embed (Or.inl rfl)]
  cases hb : build_from_data fs.dataFile embed with
  | error e =>
    refine ⟨rfl, ?_, ?_⟩
    · intro idx m h
      exact absurd h (by simp)
    · intro msg h
      have h2 : e = RagError.consistency msg := by simpa using h
      rw [h2] at hb
      exact build_from_data_no_consistency fs.dataFile embed hembed msg hb
  | ok p =>
    obtain ⟨idx', m'⟩ := p
    refine ⟨rfl, ?_, ?_⟩
    · intro idx m h
      have h2 : idx' = idx ∧ m' = m := by simpa using h
      obtain ⟨h1, h2⟩ := h2
      subst h1
      subst h2
      rfl
    · intro msg h
      exact absurd h (by simp)

/-- Witness for C9 at a concrete input: index artifact present, mapping
artifact missing. -/
theorem single_artifact_rebuilds_witness :
    (load_faiss_index ⟨some ⟨EMBEDDING_DIM, [[1]]⟩, none, some ['a']⟩
        (fun _ => .ok (List.replicate 1536 (0 : Int)))).1 =
      (load_faiss_index ⟨none, none, some ['a']⟩
        (fun _ => .ok (List.replicate 1536 (0 : Int)))).1 :=
  (single_artifact_rebuilds ⟨some ⟨EMBEDDING_DIM, [[1]]⟩, none, some ['a']⟩
    (fun _ => .ok (List.replicate 1536 (0 : Int)))
    (by decide) (fun c msg h => Except.noConfusion h)).1

/-- C7: a structurally parsed response whose `data` field is missing or
whose `data` list is empty makes `get_embedding` raise the
malformed-response error, which is distinguishable from every
dimension-mismatch error. -/
theorem get_embedding_malformed_distinct (text key : List Char)
    (fields : List (List Char × Json))
    (htext : text ≠ []) (hkey : key ≠ [])
    (hdata : lookupField fields ['d', 'a', 't', 'a'] = none ∨
             lookupField fields ['d', 'a', 't', 'a'] = some (.jarr [])) :
    get_embedding text (some key) (.jobj fields) =
      .error (.malformedResponse "Response does not contain any data.") ∧
    ∀ msg off exp got,
      (RagError.malformedResponse msg) ≠ .dimMismatch off exp got := by
  constructor
  · have hpos : 0 < text.length := List.length_pos.mpr htext
    unfold get_embedding
    rw [if_neg (not_not_intro hpos), if_neg (by simp [hkey])]
    unfold parseEmbeddingResponse
    rcases hdata with h | h <;> simp only [h]
  · intro msg off exp got h
    exact RagError.noConfusion h

/-- Witness for C7 at a concrete input: an object without a `data`
field. -/
theorem get_embedding_malformed_distinct_witness :
    get_embedding ['h', 'i'] (some ['k']) (.jobj [(['i', 'd'], .jnum 7)]) =
      .error (.malformedResponse "Response does not contain any data.") :=
  (get_embedding_malformed_distinct ['h', 'i'] ['k'] [(['i', 'd'], .jnum 7)]
    (by decide) (by decide) (Or.inl rfl)).1

/-! ## Claim theorems: the concrete retrieval scenario -/

/-- Zero-padded replicates contribute zero squared distance. -/
theorem sqDist_replicate_zero : ∀ (a b : Nat),
    sqDist (List.replicate a (0 : Int)) (List.replicate b 0) = 0 := by
  intro a
  induction a with
  | zero => intro b; simp [sqDist]
  | succ a ih =>
    intro b
    cases b with
    | zero => simp [sqDist]
    | succ b =>
      have hb := ih b
      unfold sqDist at hb ⊢
      simp only [List.replicate_succ, List.zip_cons_cons, List.map_cons,
        List.sum_cons, hb]
      decide

/-- Zero-padding two vectors of equal length leaves their squared L2
distance unchanged. -/
theorem sqDist_padV (u v : Vec) (h : u.length = v.length) :
    sqDist (padV u) (padV v) = sqDist u v := by
  unfold padV sqDist
  rw [List.zip_append h, List.map_append, List.sum_append]
  have hz := sqDist_replicate_zero (EMBEDDING_DIM - u.length)
    (EMBEDDING_DIM - v.length)
  unfold sqDist at hz
  rw [hz, add_zero]

/-- Zero-padding yields a vector of the configured dimension. -/
theorem padV_length (v : Vec) (h : v.length ≤ EMBEDDING_DIM) :
    (padV v).length = EMBEDDING_DIM := by
  unfold padV
  rw [List.length_append, List.length_replicate]
  omega

/-- C6 (counterexample): the document "A B C D E" chunks as the claim
states, but with the literal 2-dimensional scenario vectors the source's
`retrieve_top_k` raises a dimension-mismatch error (the query embedding
has length 2, not `EMBEDDING_DIM = 1536`) instead of returning
`["C D", "A B"]`. -/
theorem scenario_c6_counterexample :
    chunk_text ['A', ' ', 'B', ' ', 'C', ' ', 'D', ' ', 'E'] 2 =
      .ok [['A', ' ', 'B'], ['C', ' ', 'D'], ['E']] ∧
    retrieve_top_k ['q'] ⟨EMBEDDING_DIM, [[0, 0], [1, 1], [2, 2]]⟩
        [['A', ' ', 'B'], ['C', ' ', 'D'], ['E']] 2
        (fun _ => .ok [1, 1]) =
      .error (.dimMismatch ['q'] EMBEDDING_DIM 2) ∧
    retrieve_top_k ['q'] ⟨EMBEDDING_DIM, [[0, 0], [1, 1], [2, 2]]⟩
        [['A', ' ', 'B'], ['C', ' ', 'D'], ['E']] 2
        (fun _ => .ok [1, 1]) ≠
      .ok [['C', ' ', 'D'], ['A', ' ', 'B']] := by
  refine ⟨by decide, by decide, by decide⟩

/-- C6 (amended): the document "A B C D E" with `max_words = 2` chunks
to `["A B", "C D", "E"]`; embedding the chunks to the scenario vectors
`[0,0]`, `[1,1]`, `[2,2]` zero-padded to the 1536 dimensions the index
enforces (padding preserves all pairwise squared distances: they remain
2, 0, 2) and the query to zero-padded `[1,1]`, retrieval with `k = 2`
returns `["C D", "A B"]` — ascending distance with ascending-position
tie-break. -/
theorem scenario_c6_amended :
    chunk_text ['A', ' ', 'B', ' ', 'C', ' ', 'D', ' ', 'E'] 2 =
      .ok [['A', ' ', 'B'], ['C', ' ', 'D'], ['E']] ∧
    retrieve_top_k ['q']
        ⟨EMBEDDING_DIM, [padV [0, 0], padV [1, 1], padV [2, 2]]⟩
        [['A', ' ', 'B'], ['C', ' ', 'D'], ['E']] 2
        (fun _ => .ok (padV [1, 1])) =
      .ok [['C', ' ', 'D'], ['A', ' ', 'B']] := by
  constructor
  · decide
  · have hq : (['q'] : List Char) ≠ [] := by decide
    have hk : ¬ (2 : Int) ≤ 0 := by decide
    have hlen : (padV [(1 : Int), 1]).length = EMBEDDING_DIM :=
      padV_length _ (by decide)
    have h0 : sqDist (padV [1, 1]) (padV [0, 0]) = 2 := by
      rw [sqDist_padV [1, 1] [0, 0] rfl]; decide
    have h1 : sqDist (padV [1, 1]) (padV [1, 1]) = 0 := by
      rw [sqDist_padV [1, 1] [1, 1] rfl]; decide
    have h2 : sqDist (padV [1, 1]) (padV [2, 2]) = 2 := by
      rw [sqDist_padV [1, 1] [2, 2] rfl]; decide
    simp only [retrieve_top_k, hq, if_false, hk, ite_false, hlen, ne_eq,
      not_true_eq_false, searchIndex, scoreVecs, h0, h1, h2]
    decide
